import Mathlib

/-!
Verification development for `image_gallery_parser.py` (VKMessage-image-parser).

The Python source is shallowly embedded: strings are modelled as `String` /
`List Char`, the mutable parser state (`all_links : Set[str]`,
`photos_by_date : Dict[str, List[str]]`) as an explicit record threaded
through the processing functions, fallible steps as `Option`.  Each
definition mirrors one Python function or constant; the mapping is noted in
its doc comment.
-/

/-- Characters treated as whitespace by the regex class `\s` and by
`str.strip()`.  Python also accepts further Unicode whitespace; the model
restricts to the ASCII whitespace characters, which covers all inputs used
in the development. -/
def isPySpace (c : Char) : Bool :=
  c = ' ' || c = '\t' || c = '\n' || c = '\x0b' || c = '\x0c' || c = '\r'

/-- ASCII decimal digit, modelling the regex class `\d` (Python also accepts
other Unicode decimal digits; the model restricts to ASCII digits). -/
def isPyDigit (c : Char) : Bool :=
  '0' ≤ c && c ≤ '9'

/-- The character class `[а-я]` under `re.IGNORECASE`: a lowercase Cyrillic
letter in U+0430..U+044F, or its uppercase counterpart in U+0410..U+042F. -/
def isCyrLetter (c : Char) : Bool :=
  (0x430 ≤ c.toNat && c.toNat ≤ 0x44F) || (0x410 ≤ c.toNat && c.toNat ≤ 0x42F)

/-- `str.lower()` restricted to the character repertoire that can occur here:
ASCII letters, the Cyrillic base range and Ё.  Other characters are returned
unchanged. -/
def pyLower (c : Char) : Char :=
  if 'A' ≤ c && c ≤ 'Z' then Char.ofNat (c.toNat + 32)
  else if 0x410 ≤ c.toNat && c.toNat ≤ 0x42F then Char.ofNat (c.toNat + 32)
  else if c.toNat = 0x401 then Char.ofNat 0x451
  else c

/-- `str.strip()`: remove leading and trailing whitespace. -/
def pyStrip (s : List Char) : List Char :=
  ((s.dropWhile isPySpace).reverse.dropWhile isPySpace).reverse

/-- `href.split('?')[0]`: everything before the first `?` (the whole string
when there is no `?`). -/
def stripQuery (s : List Char) : List Char :=
  s.takeWhile (fun c => c ≠ '?')

/-- The final path component: everything after the last `/` (POSIX
`os.path`). -/
def lastComponent (p : List Char) : List Char :=
  (p.reverse.takeWhile (fun c => c ≠ '/')).reverse

/-- The extension part of `os.path.splitext(p)` on POSIX: the suffix of the
final path component starting at its last `.`, unless every character of the
component before that dot is itself a dot (leading dots of a hidden file do
not start an extension), in which case the extension is empty. -/
def splitextExt (p : List Char) : List Char :=
  let base := lastComponent p
  if (base.dropWhile (fun c => c = '.')).contains '.' then
    '.' :: (base.reverse.takeWhile (fun c => c ≠ '.')).reverse
  else []

/-- `Config.image_extensions` as installed by `Config.__post_init__` when no
explicit list is given (the only way the program constructs a `Config`). -/
def defaultImageExtensions : List String :=
  [".jpg", ".jpeg", ".png", ".gif", ".bmp", ".webp", ".svg"]

/-- `ImageGalleryParser.is_image_link`: drop the query string, take the
lowercased `splitext` extension, and test membership in the configured
extension list. -/
def is_image_link (image_extensions : List String) (href : String) : Bool :=
  let clean_href := stripQuery href.data
  let ext := String.mk ((splitextExt clean_href).map pyLower)
  image_extensions.contains ext

/-- The three capture groups of `DATE_PATTERN`: day digits, month letters,
year digits. -/
abbrev DateGroups := List Char × List Char × List Char

/-- Attempt of `DATE_PATTERN` at the start of `cs` with a two-digit day:
`\d\d\s[а-я]{3}\s\d{4}`. -/
def matchTwo (cs : List Char) : Option DateGroups :=
  match cs with
  | d1 :: d2 :: w1 :: m1 :: m2 :: m3 :: w2 :: y1 :: y2 :: y3 :: y4 :: _ =>
    if isPyDigit d1 && isPyDigit d2 && isPySpace w1 &&
       isCyrLetter m1 && isCyrLetter m2 && isCyrLetter m3 && isPySpace w2 &&
       isPyDigit y1 && isPyDigit y2 && isPyDigit y3 && isPyDigit y4 then
      some ([d1, d2], [m1, m2, m3], [y1, y2, y3, y4])
    else none
  | _ => none

/-- Attempt of `DATE_PATTERN` at the start of `cs` with a one-digit day:
`\d\s[а-я]{3}\s\d{4}`. -/
def matchOne (cs : List Char) : Option DateGroups :=
  match cs with
  | d1 :: w1 :: m1 :: m2 :: m3 :: w2 :: y1 :: y2 :: y3 :: y4 :: _ =>
    if isPyDigit d1 && isPySpace w1 &&
       isCyrLetter m1 && isCyrLetter m2 && isCyrLetter m3 && isPySpace w2 &&
       isPyDigit y1 && isPyDigit y2 && isPyDigit y3 && isPyDigit y4 then
      some ([d1], [m1, m2, m3], [y1, y2, y3, y4])
    else none
  | _ => none

/-- Attempt of `DATE_PATTERN` anchored at the start of `cs`.  The greedy
`\d{1,2}` tries the two-digit day first and backtracks to one digit. -/
def matchAt (cs : List Char) : Option DateGroups :=
  (matchTwo cs).orElse (fun _ => matchOne cs)

/-- `DATE_PATTERN.search`: the leftmost position at which the pattern
matches, scanning start positions left to right. -/
def firstMatch (cs : List Char) : Option DateGroups :=
  match cs with
  | [] => none
  | _ :: rest => (matchAt cs).orElse (fun _ => firstMatch rest)

/-- `ImageGalleryParser.MONTHS`: Russian month abbreviations to two-digit
month numbers. -/
def MONTHS : List (String × String) :=
  [("янв", "01"), ("фев", "02"), ("мар", "03"), ("апр", "04"),
   ("мая", "05"), ("июн", "06"), ("июл", "07"), ("авг", "08"),
   ("сен", "09"), ("окт", "10"), ("ноя", "11"), ("дек", "12")]

/-- `MONTHS.get(key)`: dictionary lookup returning `None` for a missing
key. -/
def monthsLookup (key : String) : Option String :=
  (MONTHS.find? (fun p => p.1 = key)).map (fun p => p.2)

/-- `s.zfill(2)` for an unsigned string: left-pad with `'0'` to length 2. -/
def zfill2 (s : List Char) : List Char :=
  List.replicate (2 - s.length) '0' ++ s

/-- `ImageGalleryParser.extract_date`: search for the first `DATE_PATTERN`
match, look the lowercased month token up in `MONTHS`, and on success return
`f"{year}.{month.zfill(2)}.{day.zfill(2)}"`; otherwise `None`. -/
def extract_date (text : String) : Option String :=
  match firstMatch text.data with
  | none => none
  | some (day, mon_rus, year) =>
    match monthsLookup (String.mk ((mon_rus.take 3).map pyLower)) with
    | none => none
    | some month =>
      some (String.mk year ++ "." ++ String.mk (zfill2 month.data) ++ "." ++
            String.mk (zfill2 day))

/-- One anchor element `<a href=...>` of a document, as the Document
Processor sees it: the raw `href` attribute value, and, when the anchor has
an enclosing `div.message` ancestor containing a `div.message__header`, that
header's collapsed text (`None` models both a missing message ancestor and a
missing header). -/
structure Anchor where
  href : String
  headerText : Option String
deriving Repr, DecidableEq

/-- A parsed document: its anchor elements in document order. -/
abbrev Document := List Anchor

/-- The mutable parser state: `all_links` (a set, modelled as a
duplicate-free list in insertion order; only membership is observable) and
`photos_by_date` (a `defaultdict(list)`, modelled as an association list in
key-insertion order). -/
structure GalleryState where
  all_links : List String
  photos_by_date : List (String × List String)
deriving Repr, DecidableEq

/-- The freshly initialized parser: both collections empty. -/
def initState : GalleryState := ⟨[], []⟩

/-- `set.add`: insert when absent, keep unchanged when present. -/
def addLink (s : List String) (x : String) : List String :=
  if x ∈ s then s else s ++ [x]

/-- `self.photos_by_date[k].append(v)` on a `defaultdict(list)`: append to
the existing bucket, or create a new singleton bucket at the end. -/
def appendToBucket : List (String × List String) → String → String →
    List (String × List String)
  | [], k, v => [(k, [v])]
  | (k', vs) :: rest, k, v =>
    if k' = k then (k', vs ++ [v]) :: rest
    else (k', vs) :: appendToBucket rest k v

/-- Read access `photos_by_date[k]` (empty for an absent key, as with
`defaultdict` reads that the program performs only on present keys). -/
def bucketOf (g : List (String × List String)) (k : String) : List String :=
  ((g.find? (fun p => p.1 = k)).map (fun p => p.2)).getD []

/-- One iteration of the anchor loop of
`ImageGalleryParser.process_html_file`: strip the href, skip non-image
links, add the link to `all_links`, and when the message-header context
yields a date, append the link to that date's bucket. -/
def processAnchor (st : GalleryState) (a : Anchor) : GalleryState :=
  let href := String.mk (pyStrip a.href.data)
  if is_image_link defaultImageExtensions href then
    let st1 : GalleryState := ⟨addLink st.all_links href, st.photos_by_date⟩
    match a.headerText with
    | none => st1
    | some txt =>
      match extract_date txt with
      | none => st1
      | some date_key =>
        ⟨st1.all_links, appendToBucket st1.photos_by_date date_key href⟩
  else st

/-- `process_html_file` on a successfully parsed document: fold the anchor
loop over the document's anchors. -/
def processDoc (st : GalleryState) (d : Document) : GalleryState :=
  d.foldl processAnchor st

/-- One iteration of the file loop of `parse_files`.  `none` models a file
whose processing contributes nothing: the reader failed under every
encoding (`process_html_file` returns early), or the exception raised while
scanning it was caught by the `try/except` in `parse_files`. -/
def processFile (st : GalleryState) (f : Option Document) : GalleryState :=
  match f with
  | none => st
  | some d => processDoc st d

/-- Lexicographic comparison of character lists by code point, the order
Python uses to compare strings.  (An executable counterpart of the
mathematical `String` order; the two are proved to agree below.) -/
def lexLe : List Char → List Char → Bool
  | [], _ => true
  | _ :: _, [] => false
  | a :: as, b :: bs =>
    if a < b then true
    else if b < a then false
    else lexLe as bs

/-- Python's `str` comparison: code-point-wise lexicographic order. -/
abbrev strLe (a b : String) : Prop :=
  lexLe a.data b.data = true

/-- The final sorting pass of `parse_files`:
`self.photos_by_date[date].sort()` for every date.  `list.sort()` is
modelled by stable insertion sort under the string order. -/
def sortBuckets (g : List (String × List String)) : List (String × List String) :=
  g.map (fun p => (p.1, List.insertionSort strLe p.2))

/-- `ImageGalleryParser.parse_files` over an already-discovered file list:
return early when no files were found, otherwise process every file (failed
files contributing nothing) and then sort every bucket. -/
def parse_files (files : List (Option Document)) : GalleryState :=
  if files.isEmpty then initState
  else
    let st := files.foldl processFile initState
    ⟨st.all_links, sortBuckets st.photos_by_date⟩

/-- The replacement list of one character under
`html.escape(s, quote=True)`: the five markup-special characters become
entity references, everything else is kept. -/
def escapeChar (c : Char) : List Char :=
  if c = '&' then "&amp;".data
  else if c = '<' then "&lt;".data
  else if c = '>' then "&gt;".data
  else if c.toNat = 34 then "&quot;".data
  else if c.toNat = 39 then "&#x27;".data
  else [c]

/-- `html.escape(link, quote=True)`.  The sequential `str.replace` chain of
the library function equals this character-wise map because `&` is replaced
first and no later replacement output is itself re-replaced. -/
def htmlEscape (s : String) : String :=
  String.mk (s.data.flatMap escapeChar)

/-- `s.split(sep)` for a one-character separator: full-token split, so the
empty string yields `[""]` and adjacent separators yield empty tokens. -/
def splitOnChar (sep : Char) : List Char → List (List Char)
  | [] => [[]]
  | c :: cs =>
    match splitOnChar sep cs with
    | [] => [[]]
    | t :: ts => if c = sep then [] :: t :: ts else (c :: t) :: ts

/-- `'.'.join(parts)`: interleave the parts with periods. -/
def joinDots : List (List Char) → List Char
  | [] => []
  | [x] => x
  | x :: xs => x ++ '.' :: joinDots xs

/-- `'.'.join(reversed(date_key.split('.')))`: the `DD.MM.YYYY` display form
of a `YYYY.MM.DD` key. -/
def humanDate (date_key : String) : String :=
  String.mk (joinDots (splitOnChar '.' date_key.data).reverse)

/-- `sorted(self.photos_by_date.keys())`: the bucket keys in ascending
string order (`sorted` modelled by stable insertion sort). -/
def sortedKeys (g : List (String × List String)) : List String :=
  List.insertionSort strLe (g.map (fun p => p.1))

/-- The static lines of `generate_html_content` up to (excluding) the stats
line, verbatim from the Python list literal. -/
def staticHeadLines : List String :=
  ["<!DOCTYPE html>",
   "<html lang=\"en\">",
   "<head>",
   "    <meta charset=\"UTF-8\">",
   "    <meta name=\"viewport\" content=\"width=device-width, initial-scale=1.0\">",
   "    <title>Image Gallery</title>",
   "    <style>",
   "        body \x7b font-family: Arial, sans-serif; margin: 0; padding: 20px; background: #f9f9f9; \x7d",
   "        h1 \x7b text-align: center; margin-bottom: 20px; color: #333; \x7d",
   "        h2 \x7b margin-top: 40px; border-bottom: 2px solid #ccc; padding-bottom: 5px; color: #555; \x7d",
   "        .gallery \x7b display: grid; gap: 20px; padding: 20px; \x7d",
   "        .stats \x7b text-align: center; margin-bottom: 30px; color: #666; \x7d",
   "        @media (min-width: 1200px) \x7b .gallery \x7b grid-template-columns: repeat(12, 1fr); \x7d \x7d",
   "        @media (min-width: 800px) and (max-width: 1199px) \x7b .gallery \x7b grid-template-columns: repeat(10, 1fr); \x7d \x7d",
   "        @media (max-width: 799px) \x7b .gallery \x7b grid-template-columns: repeat(6, 1fr); \x7d \x7d",
   "        .gallery a \x7b position: relative; overflow: hidden; border-radius: 8px; transition: transform 0.3s; \x7d",
   "        .gallery a:hover \x7b transform: scale(1.05); box-shadow: 0 4px 12px rgba(0,0,0,0.1); \x7d",
   "        .gallery img \x7b width: 100%; height: auto; display: block; object-fit: cover; \x7d",
   "        .no-images \x7b text-align: center; color: #888; margin-top: 50px; \x7d",
   "    </style>",
   "</head>",
   "<body>",
   "    <h1>Image Gallery</h1>"]

/-- `f"    <div class=\"stats\">Total images found: {len(self.all_links)}</div>"`. -/
def statsLine (n : Nat) : String :=
  "    <div class=\"stats\">Total images found: " ++ toString n ++ "</div>"

/-- The lines of the initial `html_content` list literal. -/
def headLines (n : Nat) : List String :=
  staticHeadLines ++ [statsLine n]

/-- The empty-gallery notice line. -/
def noticeLine : String :=
  "    <div class=\"no-images\">No images found.</div>"

/-- `f"    <h2>{human_date} ({image_count} images)</h2>"` for one date key. -/
def h2Line (g : List (String × List String)) (date_key : String) : String :=
  "    <h2>" ++ humanDate date_key ++ " (" ++ toString (bucketOf g date_key).length ++
    " images)</h2>"

/-- The `<a><img></a>` thumbnail line for one link, with the escaped link
interpolated twice. -/
def linkLine (link : String) : String :=
  "        <a href=\"" ++ htmlEscape link ++ "\" target=\"_blank\">" ++
    "<img src=\"" ++ htmlEscape link ++ "\" alt=\"Image\" loading=\"lazy\"></a>"

/-- The lines emitted for one date key: header, gallery open, one thumbnail
line per link of the bucket, gallery close. -/
def sectionLines (g : List (String × List String)) (date_key : String) : List String :=
  [h2Line g date_key, "    <div class=\"gallery\">"] ++
    (bucketOf g date_key).map linkLine ++ ["    </div>"]

/-- The closing lines of the document; `now` is the formatted
`datetime.now()` timestamp interpolated into the footer. -/
def footLines (now : String) : List String :=
  ["    <footer style=\"text-align: center; margin-top: 50px; color: #999; font-size: 0.9em;\">",
   "        Generated on " ++ now,
   "    </footer>",
   "</body>",
   "</html>"]

/-- `ImageGalleryParser.generate_html_content`: the full rendered document
as its list of lines. -/
def generate_html_content (st : GalleryState) (now : String) : List String :=
  headLines st.all_links.length ++
    (if (sortedKeys st.photos_by_date).isEmpty then [noticeLine]
     else (sortedKeys st.photos_by_date).flatMap (sectionLines st.photos_by_date)) ++
    footLines now

/-- The composition `parse_files` → `generate_html_content` performed by
`main`: the renderer consumes exactly the finalized parser state. -/
def runPipeline (files : List (Option Document)) (now : String) : List String :=
  generate_html_content (parse_files files) now

/-- The stripped href of an anchor, as computed at the top of the anchor
loop (`link_tag["href"].strip()`). -/
def strippedHref (a : Anchor) : String :=
  String.mk (pyStrip a.href.data)

/-- The date key an anchor's message-header context yields, if any:
`None` when there is no message/header context or the header text parses to
no date. -/
def anchorDate (a : Anchor) : Option String :=
  match a.headerText with
  | none => none
  | some txt => extract_date txt

/-- Anchor `a` contributes link `x` to the bucket of date key `k`: its
stripped href is `x`, the Link Classifier accepts it, and its context dates
it `k`. -/
def contributes (a : Anchor) (k x : String) : Prop :=
  x = strippedHref a ∧
    is_image_link defaultImageExtensions (strippedHref a) = true ∧
    anchorDate a = some k

/-- All anchors of a file list, in processing order; failed files contribute
none. -/
def anchorsOf (files : List (Option Document)) : List Anchor :=
  files.flatMap (fun f => f.getD [])

/-- The invariant of claim C10: every link recorded in any date bucket is
also a member of the global link set. -/
def LinksInv (st : GalleryState) : Prop :=
  ∀ k x, x ∈ bucketOf st.photos_by_date k → x ∈ st.all_links

/-- A line opening a date section (`    <h2>` prefix). -/
def isH2Line (l : String) : Bool :=
  "    <h2>".data.isPrefixOf l.data

/-- Numeric value of one decimal digit character. -/
def digitVal (c : Char) : Nat :=
  c.toNat - 48

/-- Numeric value of a most-significant-first decimal digit string. -/
def digitsVal : List Char → Nat
  | [] => 0
  | c :: cs => digitVal c * 10 ^ cs.length + digitsVal cs

/-- The `(year, month, day)` numeric triple underlying a `YYYY.MM.DD`
date-key string. -/
def keyTriple (k : String) : Nat × Nat × Nat :=
  (digitsVal (k.data.take 4), digitsVal ((k.data.drop 5).take 2),
   digitsVal (k.data.drop 8))

/-- Chronological strict order on `(year, month, day)` triples. -/
def chronLt (a b : Nat × Nat × Nat) : Prop :=
  a.1 < b.1 ∨ (a.1 = b.1 ∧ (a.2.1 < b.2.1 ∨ (a.2.1 = b.2.1 ∧ a.2.2 < b.2.2)))

/-! ## Order bridge: the executable comparator agrees with the `String` order -/

lemma lexLe_iff_not_lex (as bs : List Char) :
    lexLe as bs = true ↔ ¬ List.Lex (· < ·) bs as := by
  induction as generalizing bs with
  | nil =>
    cases bs <;> simp [lexLe]
  | cons a as ih =>
    cases bs with
    | nil =>
      simp only [lexLe, Bool.false_eq_true, false_iff, not_not]
      exact List.Lex.nil
    | cons b bs =>
      by_cases h1 : a < b
      · simp only [lexLe, if_pos h1, true_iff]
        intro hcon
        cases hcon with
        | rel h => exact absurd h1 (asymm h)
        | cons h => exact absurd h1 (lt_irrefl a)
      · by_cases h2 : b < a
        · simp only [lexLe, if_neg h1, if_pos h2, Bool.false_eq_true, false_iff, not_not]
          exact List.Lex.rel h2
        · have hab : a = b := le_antisymm (not_lt.mp h2) (not_lt.mp h1)
          subst hab
          simp only [lexLe, if_neg h1, if_neg h2, ih, List.Lex.cons_iff]

lemma strLe_iff_le (a b : String) : strLe a b ↔ a ≤ b := by
  rw [show strLe a b = (lexLe a.data b.data = true) from rfl, lexLe_iff_not_lex]
  constructor
  · intro h
    by_contra hcon
    rw [not_le] at hcon
    exact h (String.lt_iff_toList_lt.mp hcon)
  · intro h hcon
    exact absurd h (not_le.mpr (String.lt_iff_toList_lt.mpr hcon))

lemma strLe_total (a b : String) : strLe a b ∨ strLe b a := by
  rcases le_total a b with h | h
  · exact Or.inl ((strLe_iff_le a b).mpr h)
  · exact Or.inr ((strLe_iff_le b a).mpr h)

lemma strLe_trans (a b c : String) : strLe a b → strLe b c → strLe a c := by
  intro hab hbc
  exact (strLe_iff_le a c).mpr
    (le_trans ((strLe_iff_le a b).mp hab) ((strLe_iff_le b c).mp hbc))

lemma sorted_le_insertionSort (l : List String) :
    (List.insertionSort strLe l).Sorted (fun a b : String => a ≤ b) := by
  haveI : IsTotal String strLe := ⟨strLe_total⟩
  haveI : IsTrans String strLe := ⟨strLe_trans⟩
  exact (List.sorted_insertionSort strLe l).imp
    (fun h => (strLe_iff_le _ _).mp h)

/-! ## C1: the Link Classifier -/

/-- C1: for every raw link string, `is_image_link` (with the default
configuration) accepts it if and only if, after removing everything from the
first `?` onward, the lowercased filename extension of the remainder is one
of `.jpg .jpeg .png .gif .bmp .webp .svg`; in particular
`"photo.JPG?size=large"` is accepted and `"doc.pdf"` is rejected. -/
theorem is_image_link_spec (href : String) :
    (is_image_link defaultImageExtensions href = true ↔
      String.mk ((splitextExt (stripQuery href.data)).map pyLower) ∈
        defaultImageExtensions) ∧
    is_image_link defaultImageExtensions "photo.JPG?size=large" = true ∧
    is_image_link defaultImageExtensions "doc.pdf" = false := by
  refine ⟨?_, by decide, by decide⟩
  simp [is_image_link, List.elem_iff]

/-! ## C2: successful date extraction -/

/-- C2 counterexample: a text that contains `"15 янв 2024"` but whose first
`DATE_PATTERN` match is an earlier date mention does not yield
`"2024.01.15"` — the claim's "any text containing" clause fails. -/
theorem extract_date_contains_counterexample :
    extract_date ("1 мар 2020 и " ++ "15 янв 2024") = some "2020.03.01" ∧
    ("2020.03.01" : String) ≠ "2024.01.15" :=
  ⟨by decide, by decide⟩

/-- C2 (amended): for every input text whose first `DATE_PATTERN` match
carries a recognized month token, `extract_date` returns the normalized
string `YYYY.MM.DD` built from that first match, with day and month
zero-padded to two digits; in particular any text whose first match is
`"15 янв 2024"` — such as that text itself — yields `"2024.01.15"`. -/
theorem extract_date_success (t : String) (d m y : List Char) (mm : String)
    (h1 : firstMatch t.data = some (d, m, y))
    (h2 : monthsLookup (String.mk ((m.take 3).map pyLower)) = some mm) :
    extract_date t =
      some (String.mk y ++ "." ++ String.mk (zfill2 mm.data) ++ "." ++
            String.mk (zfill2 d)) ∧
    extract_date "15 янв 2024" = some "2024.01.15" := by
  refine ⟨?_, by decide⟩
  simp only [extract_date, h1, h2]

/-- Witness for C2: `extract_date_success` applied to the concrete text
`"15 янв 2024"`, both hypotheses discharged by evaluation. -/
theorem extract_date_success_witness :
    firstMatch ("15 янв 2024").data = some ("15".data, "янв".data, "2024".data) ∧
    monthsLookup (String.mk ((("янв").data.take 3).map pyLower)) = some "01" ∧
    extract_date "15 янв 2024" =
      some (String.mk ("2024").data ++ "." ++ String.mk (zfill2 ("01").data) ++ "." ++
            String.mk (zfill2 ("15").data)) := by
  refine ⟨by decide, by decide, ?_⟩
  exact (extract_date_success "15 янв 2024" ("15").data ("янв").data ("2024").data "01"
    (by decide) (by decide)).1

/-! ## C3: failure modes of the Date Extractor -/

/-- C3: `extract_date` returns `None` (never an error — it is total) when
the text has no `DATE_PATTERN` match or when the first match's month token
is not in the twelve-entry table; and only the first match is ever
consulted: two texts with the same first match get the same result. -/
theorem extract_date_failure_modes (t u t1 t2 : String) :
    (firstMatch t.data = none → extract_date t = none) ∧
    (∀ d m y, firstMatch u.data = some (d, m, y) →
      monthsLookup (String.mk ((m.take 3).map pyLower)) = none →
      extract_date u = none) ∧
    (firstMatch t1.data = firstMatch t2.data → extract_date t1 = extract_date t2) := by
  refine ⟨fun h => by simp only [extract_date, h], ?_,
    fun h => by simp only [extract_date, h]⟩
  intro d m y h1 h2
  simp only [extract_date, h1, h2]

/-- Witness for C3: no-match text, unrecognized-month text, and a pair of
texts sharing the first match `"12 ааа 2020"` (the later recognized match
`"15 янв 2024"` of the first text is ignored). -/
theorem extract_date_failure_modes_witness :
    extract_date "no date here" = none ∧
    extract_date "12 ааа 2020" = none ∧
    extract_date "12 ааа 2020 15 янв 2024" = extract_date "12 ааа 2020 99 фев 1999" := by
  refine ⟨?_, ?_, ?_⟩
  · exact (extract_date_failure_modes "no date here" "" "" "").1 (by decide)
  · exact (extract_date_failure_modes "" "12 ааа 2020" "" "").2.1
      ("12").data ("ааа").data ("2020").data (by decide) (by decide)
  · exact (extract_date_failure_modes "" "" "12 ааа 2020 15 янв 2024"
      "12 ааа 2020 99 фев 1999").2.2 (by decide)

/-! ## C8: per-file failures do not affect other files -/

/-- C8: a file whose processing fails (reader failure or exception while
scanning, both modelled by `none`) is skipped by `parse_files`: the run over
a list with the failing file produces exactly the state of the run without
it, so all subsequent files are processed and every other file's
contribution is unaffected. -/
theorem per_file_failure_isolated (fs1 fs2 : List (Option Document)) :
    parse_files (fs1 ++ none :: fs2) = parse_files (fs1 ++ fs2) := by
  have key : ∀ i : GalleryState,
      List.foldl processFile i (fs1 ++ none :: fs2) =
      List.foldl processFile i (fs1 ++ fs2) := by
    intro i
    simp [List.foldl_append, List.foldl_cons, processFile]
  by_cases h : (fs1 ++ fs2).isEmpty
  · rcases List.append_eq_nil.mp (List.isEmpty_iff.mp h) with ⟨rfl, rfl⟩
    decide
  · rw [parse_files, parse_files, if_neg h, if_neg (by simp_all [List.isEmpty_iff])]
    simp only [key]

/-! ## Aggregation lemmas shared by the bucket-membership claims -/

lemma mem_addLink (s : List String) (x y : String) :
    y ∈ addLink s x ↔ y ∈ s ∨ y = x := by
  unfold addLink
  by_cases h : x ∈ s
  · simp only [if_pos h]
    exact ⟨Or.inl, fun hy => hy.elim id (fun he => he ▸ h)⟩
  · simp [if_neg h]

lemma mem_bucketOf_appendToBucket (g : List (String × List String))
    (k v k' x : String) :
    x ∈ bucketOf (appendToBucket g k v) k' ↔
      x ∈ bucketOf g k' ∨ (k' = k ∧ x = v) := by
  induction g with
  | nil =>
    by_cases h : k = k'
    · subst h
      simp [appendToBucket, bucketOf, List.find?]
    · simp [appendToBucket, bucketOf, List.find?, h, Ne.symm h]
  | cons p rest ih =>
    obtain ⟨k2, vs⟩ := p
    by_cases h1 : k2 = k
    · subst h1
      by_cases h2 : k2 = k'
      · subst h2
        simp [appendToBucket, bucketOf, List.find?_cons]
      · simp [appendToBucket, bucketOf, List.find?_cons, h2, Ne.symm h2]
    · by_cases h2 : k2 = k'
      · subst h2
        simp [appendToBucket, bucketOf, List.find?_cons, h1, Ne.symm h1]
      · have ih' := ih
        simp only [bucketOf] at ih'
        simp [appendToBucket, bucketOf, List.find?_cons, h1, h2, ih']

lemma processAnchor_eq (st : GalleryState) (a : Anchor) :
    processAnchor st a =
      if is_image_link defaultImageExtensions (strippedHref a) then
        match anchorDate a with
        | none => ⟨addLink st.all_links (strippedHref a), st.photos_by_date⟩
        | some dk => ⟨addLink st.all_links (strippedHref a),
                      appendToBucket st.photos_by_date dk (strippedHref a)⟩
      else st := by
  rcases a with ⟨href, ht⟩
  cases ht with
  | none => rfl
  | some txt =>
    show processAnchor st ⟨href, some txt⟩ = _
    unfold processAnchor anchorDate strippedHref
    cases hdt : extract_date txt <;> simp only [hdt]

lemma processAnchor_all_links (st : GalleryState) (a : Anchor) :
    (processAnchor st a).all_links =
      if is_image_link defaultImageExtensions (strippedHref a) then
        addLink st.all_links (strippedHref a)
      else st.all_links := by
  rw [processAnchor_eq]
  by_cases h : is_image_link defaultImageExtensions (strippedHref a) = true
  · rw [if_pos h, if_pos h]
    cases anchorDate a <;> rfl
  · rw [if_neg h, if_neg h]

lemma bucket_processAnchor (st : GalleryState) (a : Anchor) (k x : String) :
    x ∈ bucketOf (processAnchor st a).photos_by_date k ↔
      x ∈ bucketOf st.photos_by_date k ∨ contributes a k x := by
  rw [processAnchor_eq]
  by_cases himg : is_image_link defaultImageExtensions (strippedHref a) = true
  · rw [if_pos himg]
    cases had : anchorDate a with
    | none => simp [contributes, had]
    | some dk =>
      show x ∈ bucketOf (appendToBucket st.photos_by_date dk (strippedHref a)) k ↔ _
      rw [mem_bucketOf_appendToBucket]
      simp only [contributes, had, himg, Option.some.injEq, true_and]
      constructor
      · rintro (h | ⟨rfl, rfl⟩)
        · exact Or.inl h
        · exact Or.inr ⟨rfl, rfl⟩
      · rintro (h | ⟨rfl, rfl⟩)
        · exact Or.inl h
        · exact Or.inr ⟨rfl, rfl⟩
  · rw [if_neg himg]
    simp [contributes, himg]

lemma bucket_processDoc (d : Document) (st : GalleryState) (k x : String) :
    x ∈ bucketOf (processDoc st d).photos_by_date k ↔
      x ∈ bucketOf st.photos_by_date k ∨ ∃ a ∈ d, contributes a k x := by
  induction d generalizing st with
  | nil => simp [processDoc]
  | cons a d ih =>
    have hstep : processDoc st (a :: d) = processDoc (processAnchor st a) d := rfl
    rw [hstep, ih, bucket_processAnchor]
    constructor
    · rintro ((h | hc) | ⟨b, hb, hc⟩)
      · exact Or.inl h
      · exact Or.inr ⟨a, List.mem_cons_self a d, hc⟩
      · exact Or.inr ⟨b, List.mem_cons_of_mem a hb, hc⟩
    · rintro (h | ⟨b, hb, hc⟩)
      · exact Or.inl (Or.inl h)
      · rcases List.mem_cons.mp hb with rfl | hb2
        · exact Or.inl (Or.inr hc)
        · exact Or.inr ⟨b, hb2, hc⟩

lemma bucket_foldFiles (files : List (Option Document)) (st : GalleryState)
    (k x : String) :
    x ∈ bucketOf (files.foldl processFile st).photos_by_date k ↔
      x ∈ bucketOf st.photos_by_date k ∨ ∃ a ∈ anchorsOf files, contributes a k x := by
  induction files generalizing st with
  | nil => simp [anchorsOf]
  | cons f fs ih =>
    rw [List.foldl_cons, ih]
    cases f with
    | none =>
      have hanch : anchorsOf (none :: fs) = anchorsOf fs := by simp [anchorsOf]
      rw [hanch]
      exact Iff.rfl
    | some d =>
      show x ∈ bucketOf (processDoc st d).photos_by_date k ∨ _ ↔ _
      rw [bucket_processDoc]
      simp only [anchorsOf, List.flatMap_cons, Option.getD_some, List.mem_append]
      constructor
      · rintro ((h | ⟨a, ha, hc⟩) | ⟨a, ha, hc⟩)
        · exact Or.inl h
        · exact Or.inr ⟨a, Or.inl ha, hc⟩
        · exact Or.inr ⟨a, Or.inr ha, hc⟩
      · rintro (h | ⟨a, (ha | ha), hc⟩)
        · exact Or.inl (Or.inl h)
        · exact Or.inl (Or.inr ⟨a, ha, hc⟩)
        · exact Or.inr ⟨a, ha, hc⟩

lemma bucketOf_sortBuckets (g : List (String × List String)) (k : String) :
    bucketOf (sortBuckets g) k =
      List.insertionSort strLe (bucketOf g k) := by
  unfold sortBuckets bucketOf
  rw [List.find?_map]
  have hcomp : ((fun p : String × List String => decide (p.1 = k)) ∘
      (fun p : String × List String =>
        (p.1, List.insertionSort strLe p.2))) =
      (fun p : String × List String => decide (p.1 = k)) := rfl
  rw [hcomp]
  cases h : List.find? (fun p : String × List String => decide (p.1 = k)) g <;>
    simp [h]

/-! ## C4: cross-bucket occurrence of dated links -/

/-- C4 counterexample: the same image link encountered under two different
date contexts lands in two different `DateKey` buckets — there is no
cross-bucket dedup, so "appears in exactly one bucket" fails. -/
theorem cross_bucket_duplication :
    let st := parse_files [some [⟨"a.jpg", some "15 янв 2024"⟩,
      ⟨"a.jpg", some "16 янв 2024"⟩]]
    ("a.jpg" : String) ∈ bucketOf st.photos_by_date "2024.01.15" ∧
    ("a.jpg" : String) ∈ bucketOf st.photos_by_date "2024.01.16" ∧
    ("2024.01.15" : String) ≠ "2024.01.16" :=
  ⟨by decide, by decide, by decide⟩

/-- C4 (amended): after the aggregation pass, a link appears in the bucket
of a `DateKey` exactly when some anchor of the file list contributed it
under that date; in particular every dated link is in a bucket, but a link
encountered under several distinct dates appears in each of those buckets
(no cross-bucket dedup). -/
theorem bucket_membership_characterization (files : List (Option Document))
    (k x : String) :
    x ∈ bucketOf (parse_files files).photos_by_date k ↔
      ∃ a ∈ anchorsOf files, contributes a k x := by
  unfold parse_files
  by_cases h : files.isEmpty
  · rw [if_pos h]
    rcases List.isEmpty_iff.mp h with rfl
    simp [anchorsOf, initState, bucketOf]
  · rw [if_neg h]
    show x ∈ bucketOf (sortBuckets _) k ↔ _
    rw [bucketOf_sortBuckets, List.mem_insertionSort, bucket_foldFiles]
    simp [initState, bucketOf]

/-! ## C10: bucket contents are always in the global link set -/

lemma linksInv_initState : LinksInv initState := by
  intro k x hx
  simp [bucketOf, initState] at hx

lemma linksInv_processAnchor (st : GalleryState) (a : Anchor)
    (h : LinksInv st) : LinksInv (processAnchor st a) := by
  intro k x hx
  rw [bucket_processAnchor] at hx
  rw [processAnchor_all_links]
  rcases hx with hold | ⟨rfl, himg, _⟩
  · have hmem := h k x hold
    split
    · exact (mem_addLink _ _ _).mpr (Or.inl hmem)
    · exact hmem
  · rw [if_pos himg]
    exact (mem_addLink _ _ _).mpr (Or.inr rfl)

lemma linksInv_processDoc (d : Document) (st : GalleryState)
    (h : LinksInv st) : LinksInv (processDoc st d) := by
  induction d generalizing st with
  | nil => exact h
  | cons a d ih => exact ih _ (linksInv_processAnchor st a h)

lemma linksInv_processFile (st : GalleryState) (f : Option Document)
    (h : LinksInv st) : LinksInv (processFile st f) := by
  cases f with
  | none => exact h
  | some d => exact linksInv_processDoc d st h

lemma linksInv_foldFiles (files : List (Option Document)) (st : GalleryState)
    (h : LinksInv st) : LinksInv (files.foldl processFile st) := by
  induction files generalizing st with
  | nil => exact h
  | cons f fs ih => exact ih _ (linksInv_processFile st f h)

lemma linksInv_sortBuckets (st : GalleryState) (h : LinksInv st) :
    LinksInv (⟨st.all_links, sortBuckets st.photos_by_date⟩ : GalleryState) := by
  intro k x hx
  rw [show (⟨st.all_links, sortBuckets st.photos_by_date⟩ : GalleryState).photos_by_date =
    sortBuckets st.photos_by_date from rfl, bucketOf_sortBuckets,
    List.mem_insertionSort] at hx
  exact h k x hx

lemma linksInv_parse_files (files : List (Option Document)) :
    LinksInv (parse_files files) := by
  unfold parse_files
  by_cases h : files.isEmpty
  · rw [if_pos h]
    exact linksInv_initState
  · rw [if_neg h]
    exact linksInv_sortBuckets _ (linksInv_foldFiles files initState linksInv_initState)

/-- C10: every link held in any `photos_by_date` bucket is also a member of
`all_links`, at every point of the run: the invariant holds initially, is
preserved by each anchor step and each file step, and holds of the final
state of `parse_files`. -/
theorem bucket_links_in_global (st : GalleryState) (a : Anchor)
    (f : Option Document) :
    LinksInv initState ∧
    (LinksInv st → LinksInv (processAnchor st a)) ∧
    (LinksInv st → LinksInv (processFile st f)) ∧
    (∀ files, LinksInv (parse_files files)) :=
  ⟨linksInv_initState, linksInv_processAnchor st a, linksInv_processFile st f,
   linksInv_parse_files⟩

/-- Witness for C10: the preservation steps applied to the initial state and
a concrete image anchor, their invariant hypotheses discharged by the
theorem's own base case. -/
theorem bucket_links_in_global_witness :
    LinksInv (processAnchor initState ⟨"a.jpg", some "15 янв 2024"⟩) ∧
    LinksInv (processFile initState (some [⟨"a.jpg", some "15 янв 2024"⟩])) :=
  ⟨(bucket_links_in_global initState ⟨"a.jpg", some "15 янв 2024"⟩ none).2.1
      (bucket_links_in_global initState ⟨"a.jpg", some "15 янв 2024"⟩ none).1,
   (bucket_links_in_global initState ⟨"a.jpg", some "15 янв 2024"⟩
      (some [⟨"a.jpg", some "15 янв 2024"⟩])).2.2.1
      (bucket_links_in_global initState ⟨"a.jpg", some "15 янв 2024"⟩ none).1⟩

/-! ## C5: buckets are sorted after `parse_files` -/

/-- C5: after `parse_files`, every date bucket is sorted in plain
lexicographic string order over the raw link values, and the rendering
pipeline consumes exactly this finalized state. -/
theorem buckets_sorted_after_parse (files : List (Option Document))
    (now : String) (k : String) (l : List String)
    (h : (k, l) ∈ (parse_files files).photos_by_date) :
    l.Sorted (fun a b : String => a ≤ b) ∧
    runPipeline files now = generate_html_content (parse_files files) now := by
  refine ⟨?_, rfl⟩
  unfold parse_files at h
  by_cases hemp : files.isEmpty
  · rw [if_pos hemp] at h
    simp [initState] at h
  · rw [if_neg hemp] at h
    have h2 : (k, l) ∈ sortBuckets (files.foldl processFile initState).photos_by_date := h
    unfold sortBuckets at h2
    rcases List.mem_map.mp h2 with ⟨p, _, hpe⟩
    have hl : l = List.insertionSort strLe p.2 :=
      (congrArg Prod.snd hpe).symm
    rw [hl]
    exact sorted_le_insertionSort p.2

/-- Witness for C5: a run over one concrete file; the bucket
`["img10.jpg", "img2.jpg"]` is string-sorted (not numerically sorted). -/
theorem buckets_sorted_after_parse_witness :
    (("2024.01.15" : String), (["img10.jpg", "img2.jpg"] : List String)) ∈
      (parse_files [some [⟨"img10.jpg", some "15 янв 2024"⟩,
        ⟨"img2.jpg", some "15 янв 2024"⟩]]).photos_by_date ∧
    (["img10.jpg", "img2.jpg"] : List String).Sorted (fun a b : String => a ≤ b) ∧
    runPipeline [some [⟨"img10.jpg", some "15 янв 2024"⟩,
        ⟨"img2.jpg", some "15 янв 2024"⟩]] "ts" =
      generate_html_content (parse_files [some [⟨"img10.jpg", some "15 янв 2024"⟩,
        ⟨"img2.jpg", some "15 янв 2024"⟩]]) "ts" :=
  ⟨by decide,
   buckets_sorted_after_parse _ "ts" "2024.01.15" ["img10.jpg", "img2.jpg"] (by decide)⟩

/-! ## Renderer lemmas for C6 and C7 -/

lemma not_isPrefixOf_append (pat a z : List Char)
    (hlen : pat.length ≤ a.length) (hne : a.take pat.length ≠ pat) :
    pat.isPrefixOf (a ++ z) = false := by
  rw [Bool.eq_false_iff]
  intro hcon
  rw [List.isPrefixOf_iff_prefix, List.prefix_iff_eq_take] at hcon
  apply hne
  rw [List.take_append_of_le_length hlen] at hcon
  exact hcon.symm

lemma isH2Line_linkLine (link : String) : isH2Line (linkLine link) = false := by
  unfold isH2Line linkLine
  simp only [String.data_append, List.append_assoc]
  exact not_isPrefixOf_append _ ("        <a href=\"").data _ (by decide) (by decide)

lemma isH2Line_statsLine (n : Nat) : isH2Line (statsLine n) = false := by
  unfold isH2Line statsLine
  simp only [String.data_append, List.append_assoc]
  exact not_isPrefixOf_append _
    ("    <div class=\"stats\">Total images found: ").data _ (by decide) (by decide)

lemma isH2Line_footGen (now : String) :
    isH2Line ("        Generated on " ++ now) = false := by
  unfold isH2Line
  simp only [String.data_append]
  exact not_isPrefixOf_append _ ("        Generated on ").data _ (by decide) (by decide)

lemma isH2Line_h2Line (g : List (String × List String)) (dk : String) :
    isH2Line (h2Line g dk) = true := by
  unfold isH2Line h2Line
  simp only [String.data_append, List.append_assoc]
  rw [List.isPrefixOf_iff_prefix]
  exact List.prefix_append _ _

lemma filter_isH2_headLines (n : Nat) :
    (headLines n).filter isH2Line = [] := by
  rw [headLines, List.filter_append]
  have h1 : staticHeadLines.filter isH2Line = [] := by decide
  have h2 : List.filter isH2Line [statsLine n] = [] := by
    simp [List.filter_cons, isH2Line_statsLine n]
  rw [h1, h2]
  rfl

lemma filter_isH2_footLines (now : String) :
    (footLines now).filter isH2Line = [] := by
  rw [footLines]
  simp only [List.filter_cons, isH2Line_footGen now]
  norm_num
  decide

lemma filter_isH2_sectionLines (g : List (String × List String)) (dk : String) :
    (sectionLines g dk).filter isH2Line = [h2Line g dk] := by
  have hpair : List.filter isH2Line [h2Line g dk, "    <div class=\"gallery\">"] =
      [h2Line g dk] := by
    rw [List.filter_cons_of_pos (isH2Line_h2Line g dk),
      show List.filter isH2Line ["    <div class=\"gallery\">"] = [] from by decide]
  have hclose : List.filter isH2Line ["    </div>"] = [] := by decide
  have hlinks : ((bucketOf g dk).map linkLine).filter isH2Line = [] := by
    rw [List.filter_eq_nil_iff]
    intro a ha
    rcases List.mem_map.mp ha with ⟨x, _, rfl⟩
    simp [isH2Line_linkLine]
  show (List.filter isH2Line
    ([h2Line g dk, "    <div class=\"gallery\">"] ++
      (bucketOf g dk).map linkLine ++ ["    </div>"])) = [h2Line g dk]
  rw [List.filter_append, List.filter_append, hpair, hlinks, hclose]
  rfl

lemma filter_isH2_flatMap (g : List (String × List String)) (keys : List String) :
    (keys.flatMap (sectionLines g)).filter isH2Line = keys.map (h2Line g) := by
  induction keys with
  | nil => rfl
  | cons k ks ih =>
    rw [List.flatMap_cons, List.filter_append, filter_isH2_sectionLines, ih,
      List.map_cons, List.singleton_append]

/-! ## C6: one ordered section per date key -/

/-- C6: for a non-empty gallery, the rendered document carries exactly one
`<h2>` section line per `DateKey`, in ascending lexicographic (hence
chronological) key order, labeled with the `DD.MM.YYYY` display form and the
bucket's image count; `"2024.01.15"` displays as `"15.01.2024"`. -/
theorem renderer_sections (st : GalleryState) (now : String)
    (hne : st.photos_by_date ≠ []) :
    (generate_html_content st now).filter isH2Line =
      (sortedKeys st.photos_by_date).map (h2Line st.photos_by_date) ∧
    (sortedKeys st.photos_by_date).Sorted (fun a b : String => a ≤ b) ∧
    humanDate "2024.01.15" = "15.01.2024" ∧
    h2Line [("2024.01.15", ["x.jpg"])] "2024.01.15" =
      "    <h2>15.01.2024 (1 images)</h2>" := by
  refine ⟨?_, ?_, by decide, by decide⟩
  · have hkeys : ¬ ((sortedKeys st.photos_by_date).isEmpty = true) := by
      rw [List.isEmpty_iff_length_eq_zero, sortedKeys, List.length_insertionSort,
        List.length_map]
      exact fun hc => hne (List.length_eq_zero.mp hc)
    unfold generate_html_content
    rw [if_neg hkeys, List.filter_append, List.filter_append,
      filter_isH2_headLines, filter_isH2_footLines, filter_isH2_flatMap]
    rw [List.append_nil, List.nil_append]
  · rw [sortedKeys]
    exact sorted_le_insertionSort _

/-- Witness for C6: `renderer_sections` at a concrete one-bucket state. -/
theorem renderer_sections_witness :
    ((⟨["b.jpg"], [("2024.01.15", ["b.jpg"])]⟩ : GalleryState).photos_by_date ≠ []) ∧
    ((generate_html_content ⟨["b.jpg"], [("2024.01.15", ["b.jpg"])]⟩ "ts").filter isH2Line =
      (sortedKeys [("2024.01.15", ["b.jpg"])]).map (h2Line [("2024.01.15", ["b.jpg"])]) ∧
    (sortedKeys [("2024.01.15", ["b.jpg"])]).Sorted (fun a b : String => a ≤ b) ∧
    humanDate "2024.01.15" = "15.01.2024" ∧
    h2Line [("2024.01.15", ["x.jpg"])] "2024.01.15" =
      "    <h2>15.01.2024 (1 images)</h2>") :=
  ⟨by decide, renderer_sections ⟨["b.jpg"], [("2024.01.15", ["b.jpg"])]⟩ "ts" (by decide)⟩

/-! ## C7: the empty gallery still renders a complete document -/

lemma statsLine_ne_notice (n : Nat) : statsLine n ≠ noticeLine := by
  intro he
  have hd := congrArg String.data he
  rw [statsLine, noticeLine] at hd
  simp only [String.data_append, List.append_assoc] at hd
  have ht := congrArg (List.take 17) hd
  rw [List.take_append_of_le_length (by decide)] at ht
  exact absurd ht (by decide)

lemma footGen_ne_notice (now : String) :
    ("        Generated on " ++ now) ≠ noticeLine := by
  intro he
  have hd := congrArg String.data he
  rw [noticeLine] at hd
  simp only [String.data_append] at hd
  have ht := congrArg (List.take 5) hd
  rw [List.take_append_of_le_length (by decide)] at ht
  exact absurd ht (by decide)

/-- C7: when `photos_by_date` is empty the renderer still produces a
complete document — it starts with the doctype line, ends with the closing
`</html>`, contains the "No images found." notice exactly once, and no date
section at all; and for the empty-directory run (`parse_files []`) the
document shows a total image count of `0`. -/
theorem renderer_empty_gallery (st : GalleryState) (now : String)
    (h : st.photos_by_date = []) :
    (generate_html_content st now).count noticeLine = 1 ∧
    (generate_html_content st now).filter isH2Line = [] ∧
    (generate_html_content st now).head? = some "<!DOCTYPE html>" ∧
    (generate_html_content st now).getLast? = some "</html>" ∧
    statsLine 0 ∈ generate_html_content (parse_files []) now := by
  have hkeys : sortedKeys st.photos_by_date = [] := by rw [h]; rfl
  have hbody : generate_html_content st now =
      headLines st.all_links.length ++ [noticeLine] ++ footLines now := by
    unfold generate_html_content
    rw [hkeys]
    rfl
  refine ⟨?_, ?_, ?_, ?_, ?_⟩
  · rw [hbody, List.count_append, List.count_append]
    have h1 : (headLines st.all_links.length).count noticeLine = 0 := by
      rw [List.count_eq_zero]
      intro hmem
      rw [headLines] at hmem
      rcases List.mem_append.mp hmem with hm | hm
      · exact absurd hm (by decide)
      · exact statsLine_ne_notice _ (List.mem_singleton.mp hm).symm
    have h2 : (footLines now).count noticeLine = 0 := by
      rw [List.count_eq_zero]
      intro hmem
      rw [footLines] at hmem
      simp only [List.mem_cons, List.not_mem_nil, or_false] at hmem
      rcases hmem with he | he | he | he | he
      · exact absurd he (by decide)
      · exact footGen_ne_notice now he.symm
      · exact absurd he (by decide)
      · exact absurd he (by decide)
      · exact absurd he (by decide)
    rw [h1, h2, show List.count noticeLine [noticeLine] = 1 from by decide]
  · rw [hbody, List.filter_append, List.filter_append, filter_isH2_headLines,
      filter_isH2_footLines,
      show List.filter isH2Line [noticeLine] = [] from by decide]
    rfl
  · rw [hbody]
    rfl
  · rw [hbody]
    rfl
  · show statsLine 0 ∈ generate_html_content initState now
    exact List.mem_append_left _ (List.mem_append_left _
      (List.mem_append_right _ (List.mem_singleton.mpr rfl)))

/-- Witness for C7: `renderer_empty_gallery` at the initial (empty) state. -/
theorem renderer_empty_gallery_witness :
    (generate_html_content initState "ts").count noticeLine = 1 ∧
    (generate_html_content initState "ts").filter isH2Line = [] ∧
    (generate_html_content initState "ts").head? = some "<!DOCTYPE html>" ∧
    (generate_html_content initState "ts").getLast? = some "</html>" ∧
    statsLine 0 ∈ generate_html_content (parse_files []) "ts" :=
  renderer_empty_gallery initState "ts" (by decide)

/-! ## C9: lexicographic DateKey order is chronological order -/

lemma char_lt_iff_toNat (a b : Char) : a < b ↔ a.toNat < b.toNat := by
  exact_mod_cast Iff.rfl

lemma char_eq_iff_toNat (a b : Char) : a = b ↔ a.toNat = b.toNat := by
  constructor
  · intro h
    rw [h]
  · intro h
    apply Char.eq_of_val_eq
    apply UInt32.eq_of_toBitVec_eq
    apply BitVec.eq_of_toNat_eq
    exact h

lemma isPyDigit_bounds (c : Char) (h : isPyDigit c = true) :
    48 ≤ c.toNat ∧ c.toNat ≤ 57 := by
  unfold isPyDigit at h
  simp only [Bool.and_eq_true, decide_eq_true_eq] at h
  obtain ⟨h1, h2⟩ := h
  exact ⟨by exact_mod_cast h1, by exact_mod_cast h2⟩

lemma digitVal_lt_iff (c d : Char) (hc : isPyDigit c = true)
    (hd : isPyDigit d = true) : c < d ↔ digitVal c < digitVal d := by
  obtain ⟨hc1, hc2⟩ := isPyDigit_bounds c hc
  obtain ⟨hd1, hd2⟩ := isPyDigit_bounds d hd
  rw [char_lt_iff_toNat, digitVal, digitVal]
  omega

lemma digitVal_eq_iff (c d : Char) (hc : isPyDigit c = true)
    (hd : isPyDigit d = true) : c = d ↔ digitVal c = digitVal d := by
  obtain ⟨hc1, hc2⟩ := isPyDigit_bounds c hc
  obtain ⟨hd1, hd2⟩ := isPyDigit_bounds d hd
  rw [char_eq_iff_toNat, digitVal, digitVal]
  omega

lemma digitVal_le_nine (c : Char) (hc : isPyDigit c = true) : digitVal c ≤ 9 := by
  obtain ⟨h1, h2⟩ := isPyDigit_bounds c hc
  rw [digitVal]
  omega

lemma digitsVal_lt_pow (ds : List Char) (h : ∀ c ∈ ds, isPyDigit c = true) :
    digitsVal ds < 10 ^ ds.length := by
  induction ds with
  | nil => simp [digitsVal]
  | cons c cs ih =>
    have hc := digitVal_le_nine c (h c (List.mem_cons_self c cs))
    have hcs := ih (fun x hx => h x (List.mem_cons_of_mem c hx))
    have hm : digitVal c * 10 ^ cs.length ≤ 9 * 10 ^ cs.length :=
      Nat.mul_le_mul_right _ hc
    rw [digitsVal, List.length_cons, pow_succ]
    omega

lemma mul_add_lt_iff (a b r s K : Nat) (hr : r < K) (hs : s < K) :
    a * K + r < b * K + s ↔ a < b ∨ (a = b ∧ r < s) := by
  constructor
  · intro h
    rcases Nat.lt_trichotomy a b with hab | rfl | hab
    · exact Or.inl hab
    · exact Or.inr ⟨rfl, by omega⟩
    · exfalso
      have h1 : (b + 1) * K ≤ a * K := Nat.mul_le_mul_right K hab
      have h2 : (b + 1) * K = b * K + K := by ring
      omega
  · rintro (hab | ⟨rfl, hrs⟩)
    · have h1 : (a + 1) * K ≤ b * K := Nat.mul_le_mul_right K hab
      have h2 : (a + 1) * K = a * K + K := by ring
      omega
    · omega

lemma mul_add_eq_iff (a b r s K : Nat) (hr : r < K) (hs : s < K) :
    a * K + r = b * K + s ↔ a = b ∧ r = s := by
  constructor
  · intro h
    rcases Nat.lt_trichotomy a b with hab | rfl | hab
    · have := (mul_add_lt_iff a b r s K hr hs).mpr (Or.inl hab)
      omega
    · exact ⟨rfl, by omega⟩
    · have := (mul_add_lt_iff b a s r K hs hr).mpr (Or.inl hab)
      omega
  · rintro ⟨rfl, rfl⟩
    rfl

lemma lex_cons_iff (r : Char → Char → Prop) (a b : Char) (l1 l2 : List Char) :
    List.Lex r (a :: l1) (b :: l2) ↔ r a b ∨ (a = b ∧ List.Lex r l1 l2) := by
  constructor
  · intro h
    cases h with
    | rel h => exact Or.inl h
    | cons h => exact Or.inr ⟨rfl, h⟩
  · rintro (h | ⟨rfl, h⟩)
    · exact List.Lex.rel h
    · exact List.Lex.cons h

lemma lex_append_iff (r : Char → Char → Prop) (a b x y : List Char)
    (hlen : a.length = b.length) :
    List.Lex r (a ++ x) (b ++ y) ↔
      List.Lex r a b ∨ (a = b ∧ List.Lex r x y) := by
  induction a generalizing b with
  | nil =>
    cases b with
    | nil => simp
    | cons d ds => exact absurd hlen (by simp)
  | cons c cs ih =>
    cases b with
    | nil => exact absurd hlen (by simp)
    | cons d ds =>
      have hlen2 : cs.length = ds.length := by simpa using hlen
      simp only [List.cons_append]
      rw [lex_cons_iff, lex_cons_iff, ih ds hlen2]
      constructor
      · rintro (h | ⟨rfl, (h | ⟨rfl, h⟩)⟩)
        · exact Or.inl (Or.inl h)
        · exact Or.inl (Or.inr ⟨rfl, h⟩)
        · exact Or.inr ⟨rfl, h⟩
      · rintro ((h | ⟨rfl, h⟩) | ⟨he, h⟩)
        · exact Or.inl h
        · exact Or.inr ⟨rfl, Or.inl h⟩
        · cases he
          exact Or.inr ⟨rfl, Or.inr ⟨rfl, h⟩⟩

lemma lex_digits_iff (ds es : List Char) (hlen : ds.length = es.length)
    (hd : ∀ c ∈ ds, isPyDigit c = true) (he : ∀ c ∈ es, isPyDigit c = true) :
    List.Lex (· < ·) ds es ↔ digitsVal ds < digitsVal es := by
  induction ds generalizing es with
  | nil =>
    cases es with
    | nil => simp [digitsVal]
    | cons d ds2 => exact absurd hlen (by simp)
  | cons c cs ih =>
    cases es with
    | nil => exact absurd hlen (by simp)
    | cons d ds2 =>
      have hlen2 : cs.length = ds2.length := by simpa using hlen
      have hc := hd c (List.mem_cons_self c cs)
      have hd2 := he d (List.mem_cons_self d ds2)
      have hcs : ∀ x ∈ cs, isPyDigit x = true :=
        fun x hx => hd x (List.mem_cons_of_mem c hx)
      have hds2 : ∀ x ∈ ds2, isPyDigit x = true :=
        fun x hx => he x (List.mem_cons_of_mem d hx)
      rw [lex_cons_iff, digitsVal, digitsVal, hlen2,
        mul_add_lt_iff _ _ _ _ _ (hlen2 ▸ digitsVal_lt_pow cs hcs)
          (digitsVal_lt_pow ds2 hds2),
        ih ds2 hlen2 hcs hds2, digitVal_lt_iff c d hc hd2,
        digitVal_eq_iff c d hc hd2]

lemma digits_eq_iff (ds es : List Char) (hlen : ds.length = es.length)
    (hd : ∀ c ∈ ds, isPyDigit c = true) (he : ∀ c ∈ es, isPyDigit c = true) :
    ds = es ↔ digitsVal ds = digitsVal es := by
  induction ds generalizing es with
  | nil =>
    cases es with
    | nil => simp
    | cons d ds2 => exact absurd hlen (by simp)
  | cons c cs ih =>
    cases es with
    | nil => exact absurd hlen (by simp)
    | cons d ds2 =>
      have hlen2 : cs.length = ds2.length := by simpa using hlen
      have hc := hd c (List.mem_cons_self c cs)
      have hd2 := he d (List.mem_cons_self d ds2)
      have hcs : ∀ x ∈ cs, isPyDigit x = true :=
        fun x hx => hd x (List.mem_cons_of_mem c hx)
      have hds2 : ∀ x ∈ ds2, isPyDigit x = true :=
        fun x hx => he x (List.mem_cons_of_mem d hx)
      rw [List.cons.injEq, digitsVal, digitsVal, hlen2,
        mul_add_eq_iff _ _ _ _ _ (hlen2 ▸ digitsVal_lt_pow cs hcs)
          (digitsVal_lt_pow ds2 hds2),
        ih ds2 hlen2 hcs hds2, digitVal_eq_iff c d hc hd2]

lemma matchTwo_shape (cs : List Char) (d m y : List Char)
    (h : matchTwo cs = some (d, m, y)) :
    (d.length = 1 ∨ d.length = 2) ∧ (∀ c ∈ d, isPyDigit c = true) ∧
    y.length = 4 ∧ (∀ c ∈ y, isPyDigit c = true) := by
  unfold matchTwo at h
  split at h
  · split at h
    · rename_i d1 d2 w1 m1 m2 m3 w2 y1 y2 y3 y4 rest hguard
      simp only [Bool.and_eq_true] at hguard
      obtain ⟨⟨⟨⟨⟨⟨⟨⟨⟨⟨h1, h2⟩, h3⟩, h4⟩, h5⟩, h6⟩, h7⟩, h8⟩, h9⟩, h10⟩, h11⟩ := hguard
      simp only [Option.some.injEq, Prod.mk.injEq] at h
      obtain ⟨rfl, rfl, rfl⟩ := h
      refine ⟨Or.inr rfl, ?_, rfl, ?_⟩
      · intro c hc
        simp only [List.mem_cons, List.not_mem_nil, or_false] at hc
        rcases hc with rfl | rfl
        · exact h1
        · exact h2
      · intro c hc
        simp only [List.mem_cons, List.not_mem_nil, or_false] at hc
        rcases hc with rfl | rfl | rfl | rfl
        · exact h8
        · exact h9
        · exact h10
        · exact h11
    · exact absurd h (by simp)
  · exact absurd h (by simp)

lemma matchOne_shape (cs : List Char) (d m y : List Char)
    (h : matchOne cs = some (d, m, y)) :
    (d.length = 1 ∨ d.length = 2) ∧ (∀ c ∈ d, isPyDigit c = true) ∧
    y.length = 4 ∧ (∀ c ∈ y, isPyDigit c = true) := by
  unfold matchOne at h
  split at h
  · split at h
    · rename_i d1 w1 m1 m2 m3 w2 y1 y2 y3 y4 rest hguard
      simp only [Bool.and_eq_true] at hguard
      obtain ⟨⟨⟨⟨⟨⟨⟨⟨⟨h1, h2⟩, h3⟩, h4⟩, h5⟩, h6⟩, h7⟩, h8⟩, h9⟩, h10⟩ := hguard
      simp only [Option.some.injEq, Prod.mk.injEq] at h
      obtain ⟨rfl, rfl, rfl⟩ := h
      refine ⟨Or.inl rfl, ?_, rfl, ?_⟩
      · intro c hc
        simp only [List.mem_cons, List.not_mem_nil, or_false] at hc
        rcases hc with rfl
        exact h1
      · intro c hc
        simp only [List.mem_cons, List.not_mem_nil, or_false] at hc
        rcases hc with rfl | rfl | rfl | rfl
        · exact h7
        · exact h8
        · exact h9
        · exact h10
    · exact absurd h (by simp)
  · exact absurd h (by simp)

lemma matchAt_shape (cs : List Char) (d m y : List Char)
    (h : matchAt cs = some (d, m, y)) :
    (d.length = 1 ∨ d.length = 2) ∧ (∀ c ∈ d, isPyDigit c = true) ∧
    y.length = 4 ∧ (∀ c ∈ y, isPyDigit c = true) := by
  unfold matchAt at h
  cases h2 : matchTwo cs with
  | some g =>
    rw [h2] at h
    simp only [Option.orElse] at h
    exact matchTwo_shape cs d m y (h2.trans h)
  | none =>
    rw [h2] at h
    simp only [Option.orElse] at h
    exact matchOne_shape cs d m y h

lemma firstMatch_shape (cs : List Char) (d m y : List Char)
    (h : firstMatch cs = some (d, m, y)) :
    (d.length = 1 ∨ d.length = 2) ∧ (∀ c ∈ d, isPyDigit c = true) ∧
    y.length = 4 ∧ (∀ c ∈ y, isPyDigit c = true) := by
  induction cs with
  | nil => exact absurd h (by simp [firstMatch])
  | cons c rest ih =>
    rw [firstMatch] at h
    cases hm : matchAt (c :: rest) with
    | some g =>
      rw [hm] at h
      simp only [Option.orElse] at h
      exact matchAt_shape (c :: rest) d m y (hm.trans h)
    | none =>
      rw [hm] at h
      simp only [Option.orElse] at h
      exact ih h

lemma zfill2_shape (s : List Char) (hlen : s.length = 1 ∨ s.length = 2)
    (hd : ∀ c ∈ s, isPyDigit c = true) :
    (zfill2 s).length = 2 ∧ ∀ c ∈ zfill2 s, isPyDigit c = true := by
  constructor
  · rw [zfill2, List.length_append, List.length_replicate]
    omega
  · intro c hc
    rcases List.mem_append.mp hc with hr | hs
    · rw [List.eq_of_mem_replicate hr]
      decide
    · exact hd c hs

lemma monthsLookup_shape (k m : String) (h : monthsLookup k = some m) :
    m.data.length = 2 ∧ ∀ c ∈ m.data, isPyDigit c = true := by
  unfold monthsLookup at h
  cases hf : MONTHS.find? (fun p => p.1 = k) with
  | none =>
    rw [hf] at h
    exact absurd h (by simp)
  | some p =>
    rw [hf] at h
    simp only [Option.map_some', Option.some.injEq] at h
    subst h
    have hmem := List.mem_of_find?_eq_some hf
    fin_cases hmem <;> decide

lemma extract_date_shape (t k : String) (h : extract_date t = some k) :
    ∃ y m d : List Char,
      k.data = y ++ '.' :: (m ++ '.' :: d) ∧
      y.length = 4 ∧ m.length = 2 ∧ d.length = 2 ∧
      (∀ c ∈ y, isPyDigit c = true) ∧ (∀ c ∈ m, isPyDigit c = true) ∧
      (∀ c ∈ d, isPyDigit c = true) := by
  unfold extract_date at h
  cases hf : firstMatch t.data with
  | none =>
    rw [hf] at h
    exact absurd h (by simp)
  | some g =>
    obtain ⟨day, mon, year⟩ := g
    rw [hf] at h
    have h2 : (match monthsLookup (String.mk ((mon.take 3).map pyLower)) with
      | none => none
      | some month => some (String.mk year ++ "." ++ String.mk (zfill2 month.data) ++
          "." ++ String.mk (zfill2 day))) = some k := h
    clear h
    cases hl : monthsLookup (String.mk ((mon.take 3).map pyLower)) with
    | none =>
      rw [hl] at h2
      exact absurd h2 (by simp)
    | some month =>
      rw [hl] at h2
      simp only [Option.some.injEq] at h2
      obtain ⟨hdl, hdd, hyl, hyd⟩ := firstMatch_shape t.data day mon year hf
      obtain ⟨hml, hmd⟩ := monthsLookup_shape _ month hl
      obtain ⟨hzl, hzd⟩ := zfill2_shape day hdl hdd
      obtain ⟨hzml, hzmd⟩ := zfill2_shape month.data (Or.inr hml) hmd
      refine ⟨year, zfill2 month.data, zfill2 day, ?_, hyl, hzml, hzl, hyd, hzmd, hzd⟩
      rw [← h2]
      simp [String.data_append, List.append_assoc]

lemma keyTriple_eq (k : String) (y m d : List Char)
    (hk : k.data = y ++ '.' :: (m ++ '.' :: d))
    (hy : y.length = 4) (hm : m.length = 2) :
    keyTriple k = (digitsVal y, digitsVal m, digitsVal d) := by
  have hsplit2 : y ++ '.' :: (m ++ '.' :: d) = (y ++ ['.']) ++ (m ++ '.' :: d) := by
    simp
  have hsplit3 : y ++ '.' :: (m ++ '.' :: d) = ((y ++ ['.']) ++ (m ++ ['.'])) ++ d := by
    simp
  have h1 : List.take 4 k.data = y := by
    rw [hk]
    exact List.take_left' hy
  have h2 : List.drop 5 k.data = m ++ '.' :: d := by
    rw [hk, hsplit2]
    exact List.drop_left' (by simp [hy])
  have h3 : List.drop 8 k.data = d := by
    rw [hk, hsplit3]
    exact List.drop_left' (by simp [hy, hm])
  rw [keyTriple, h1, h2, h3, List.take_left' hm]

/-- C9: for any two `DateKey` values produced by the Date Extractor,
lexicographic string comparison of the keys agrees with chronological
comparison of the underlying `(year, month, day)` numeric triples. -/
theorem dateKey_lex_agrees_chron (t1 t2 k1 k2 : String)
    (h1 : extract_date t1 = some k1) (h2 : extract_date t2 = some k2) :
    k1 < k2 ↔ chronLt (keyTriple k1) (keyTriple k2) := by
  obtain ⟨y1, m1, d1, hk1, hy1, hm1, hd1, hyd1, hmd1, hdd1⟩ :=
    extract_date_shape t1 k1 h1
  obtain ⟨y2, m2, d2, hk2, hy2, hm2, hd2, hyd2, hmd2, hdd2⟩ :=
    extract_date_shape t2 k2 h2
  have hyy : y1.length = y2.length := by rw [hy1, hy2]
  have hmm : m1.length = m2.length := by rw [hm1, hm2]
  have hdd : d1.length = d2.length := by rw [hd1, hd2]
  rw [keyTriple_eq k1 y1 m1 d1 hk1 hy1 hm1, keyTriple_eq k2 y2 m2 d2 hk2 hy2 hm2,
    String.lt_iff_toList_lt]
  show List.Lex (· < ·) k1.data k2.data ↔ _
  rw [hk1, hk2, lex_append_iff _ y1 y2 _ _ hyy, lex_cons_iff,
    lex_append_iff _ m1 m2 _ _ hmm, lex_cons_iff,
    lex_digits_iff y1 y2 hyy hyd1 hyd2, lex_digits_iff m1 m2 hmm hmd1 hmd2,
    lex_digits_iff d1 d2 hdd hdd1 hdd2, digits_eq_iff y1 y2 hyy hyd1 hyd2,
    digits_eq_iff m1 m2 hmm hmd1 hmd2]
  simp only [chronLt, lt_self_iff_false, false_or, true_and]

/-- Witness for C9: the theorem applied to two concrete extractions,
`"2024.01.15"` and `"2024.02.03"`. -/
theorem dateKey_lex_agrees_chron_witness :
    extract_date "15 янв 2024" = some "2024.01.15" ∧
    extract_date "3 фев 2024" = some "2024.02.03" ∧
    (("2024.01.15" : String) < "2024.02.03" ↔
      chronLt (keyTriple "2024.01.15") (keyTriple "2024.02.03")) :=
  ⟨by decide, by decide,
   dateKey_lex_agrees_chron "15 янв 2024" "3 фев 2024" "2024.01.15" "2024.02.03"
     (by decide) (by decide)⟩
